import Mathlib

/-!
Verification of the ShopEAT repository's shopping-list store, keyword
detection, facade message handling, audio-queue hand-off and startup
behaviour, as a shallow embedding of the Python sources
(`backend/cli_shopping.py`, `backend/main.py`, `backend/realtime.py`,
`backend/voice_duplex_chat.py`).
-/

set_option autoImplicit false

namespace ShopEAT

/-- Keys for case-insensitive name comparison: `str.lower()` is modelled
as mapping `Char.toLower` over the characters. -/
abbrev Key := List Char

/-- Model of Python `name.lower()` used for case-insensitive identity. -/
def lowerName (s : String) : Key := s.data.map Char.toLower

/-- `ShoppingItem` from `cli_shopping.py` (also the pydantic model in
`main.py`): name, quantity, category, notes.  Python integers are
unbounded, so `quantity : Int`. -/
structure ShoppingItem where
  name : String
  quantity : Int
  category : String
  notes : String
deriving DecidableEq, Repr

/-- The case-insensitive identity key of an item. -/
def keyOf (it : ShoppingItem) : Key := lowerName it.name

/-- `ShoppingList.add_item` (`cli_shopping.py` lines 39-48): the first item
whose lowered name equals the lowered argument gets its quantity bumped in
place; if none matches, a fresh item is appended. -/
def add_item : List ShoppingItem → String → Int → String → String → List ShoppingItem
  | [], n, q, c, nt => [⟨n, q, c, nt⟩]
  | it :: rest, n, q, c, nt =>
    if keyOf it = lowerName n then
      { it with quantity := it.quantity + q } :: rest
    else
      it :: add_item rest n q c nt

/-- `ShoppingList.remove_item` (`cli_shopping.py` lines 50-52): keep the
items whose lowered name differs from the lowered argument. -/
def remove_item (s : List ShoppingItem) (n : String) : List ShoppingItem :=
  s.filter (fun it => !(decide (keyOf it = lowerName n)))

/-- `ShoppingList.clear_list` (`cli_shopping.py` lines 54-56). -/
def clear_list (_s : List ShoppingItem) : List ShoppingItem := []

/-- One `add_item` command: the arguments of one call. -/
structure AddCmd where
  name : String
  qty : Int
  cat : String
deriving DecidableEq, Repr

/-- Run a sequence of `add_item` calls on the empty store (notes default to
`""`, as in the keyword path of the source). -/
def runAdds (cmds : List AddCmd) : List ShoppingItem :=
  cmds.foldl (fun s c => add_item s c.name c.qty c.cat "") []

/-- Total quantity added under a given case-insensitive key by a command
sequence. -/
def sumQ (cmds : List AddCmd) (k : Key) : Int :=
  ((cmds.filter (fun c => decide (lowerName c.name = k))).map AddCmd.qty).sum

/-- The entry a command sequence should produce for a key: named and
categorised by the first command with that key, quantity the total. -/
def entrySpec : List AddCmd → Key → Option ShoppingItem
  | [], _ => none
  | c :: rest, k =>
    if lowerName c.name = k then some ⟨c.name, c.qty + sumQ rest k, c.cat, ""⟩
    else entrySpec rest k

/-- First item of the store with the given case-insensitive key, mirroring
the `next((item for item in self.items if ...), None)` lookup. -/
def findByKey (s : List ShoppingItem) (k : Key) : Option ShoppingItem :=
  s.find? (fun it => decide (keyOf it = k))

-- scratch checks
example : runAdds [⟨"Milk", 1, "dairy"⟩, ⟨"milk", 2, "dairy"⟩] =
    [⟨"Milk", 3, "dairy", ""⟩] := by decide

example : remove_item [⟨"Milk", 3, "dairy", ""⟩] "MILK" = [] := by decide

theorem keyOf_update (it : ShoppingItem) (q : Int) :
    keyOf { it with quantity := q } = keyOf it := rfl

theorem findByKey_nil (k : Key) : findByKey [] k = none := rfl

theorem findByKey_cons (it : ShoppingItem) (s : List ShoppingItem) (k : Key) :
    findByKey (it :: s) k = if keyOf it = k then some it else findByKey s k := by
  by_cases h : keyOf it = k <;> simp [findByKey, List.find?, h]

theorem add_item_findByKey_same (s : List ShoppingItem) (n : String) (q : Int)
    (c nt : String) :
    findByKey (add_item s n q c nt) (lowerName n) =
      match findByKey s (lowerName n) with
      | some e => some { e with quantity := e.quantity + q }
      | none => some ⟨n, q, c, nt⟩ := by
  induction s with
  | nil =>
    simp [add_item, findByKey_nil, findByKey_cons, keyOf, lowerName]
  | cons it rest ih =>
    by_cases h : keyOf it = lowerName n
    · simp [add_item, h, findByKey_cons, keyOf_update]
    · simp [add_item, h, findByKey_cons, ih]

theorem add_item_findByKey_ne (s : List ShoppingItem) (n : String) (q : Int)
    (c nt : String) (k : Key) (hk : k ≠ lowerName n) :
    findByKey (add_item s n q c nt) k = findByKey s k := by
  have hks : ¬ lowerName n = k := fun h2 => hk h2.symm
  induction s with
  | nil =>
    have hnew : keyOf (⟨n, q, c, nt⟩ : ShoppingItem) = lowerName n := rfl
    simp [add_item, findByKey_nil, findByKey_cons, hnew, hks]
  | cons it rest ih =>
    by_cases h : keyOf it = lowerName n
    · simp [add_item, h, findByKey_cons, keyOf_update, hks]
    · by_cases h3 : keyOf it = k <;>
        simp [add_item, h, findByKey_cons, h3, ih, hks, hk]

theorem add_item_map_keyOf (s : List ShoppingItem) (n : String) (q : Int)
    (c nt : String) :
    (add_item s n q c nt).map keyOf =
      if lowerName n ∈ s.map keyOf then s.map keyOf
      else s.map keyOf ++ [lowerName n] := by
  induction s with
  | nil => simp [add_item, keyOf, lowerName]
  | cons it rest ih =>
    by_cases h : keyOf it = lowerName n
    · simp [add_item, h, keyOf_update]
    · have hne : ¬ lowerName n = keyOf it := fun h2 => h h2.symm
      by_cases hmem : lowerName n ∈ rest.map keyOf <;>
        simp [add_item, h, ih, hmem, hne]

theorem sumQ_nil (k : Key) : sumQ [] k = 0 := rfl

theorem sumQ_cons (c : AddCmd) (cmds : List AddCmd) (k : Key) :
    sumQ (c :: cmds) k =
      (if lowerName c.name = k then c.qty else 0) + sumQ cmds k := by
  by_cases h : lowerName c.name = k <;> simp [sumQ, h]

theorem sumQ_append_single (cmds : List AddCmd) (c : AddCmd) (k : Key) :
    sumQ (cmds ++ [c]) k =
      sumQ cmds k + (if lowerName c.name = k then c.qty else 0) := by
  by_cases h : lowerName c.name = k <;> simp [sumQ, List.filter_append, h]

theorem entrySpec_append_single (cmds : List AddCmd) (c : AddCmd) (k : Key) :
    entrySpec (cmds ++ [c]) k =
      match entrySpec cmds k with
      | some e =>
          some { e with quantity :=
            e.quantity + (if lowerName c.name = k then c.qty else 0) }
      | none =>
          if lowerName c.name = k then some ⟨c.name, c.qty, c.cat, ""⟩
          else none := by
  induction cmds with
  | nil =>
    by_cases h : lowerName c.name = k <;> simp [entrySpec, h, sumQ_nil]
  | cons c0 rest ih =>
    by_cases h : lowerName c0.name = k
    · simp [entrySpec, h, sumQ_append_single, Int.add_assoc]
    · simp [entrySpec, h, ih]

theorem findByKey_isSome_iff (s : List ShoppingItem) (k : Key) :
    (findByKey s k).isSome ↔ k ∈ s.map keyOf := by
  simp only [findByKey, List.find?_isSome, List.mem_map, decide_eq_true_eq]

theorem runAdds_concat (cmds : List AddCmd) (c : AddCmd) :
    runAdds (cmds ++ [c]) = add_item (runAdds cmds) c.name c.qty c.cat "" := by
  simp [runAdds, List.foldl_append]

theorem runAdds_nodup_and_find (cmds : List AddCmd) :
    ((runAdds cmds).map keyOf).Nodup
    ∧ ∀ k, findByKey (runAdds cmds) k = entrySpec cmds k := by
  induction cmds using List.reverseRecOn with
  | nil =>
    exact ⟨by simp [runAdds], fun k => by simp [runAdds, findByKey_nil, entrySpec]⟩
  | append_singleton cs c ih =>
    obtain ⟨hnd, hfind⟩ := ih
    rw [runAdds_concat]
    constructor
    · rw [add_item_map_keyOf]
      by_cases hmem : lowerName c.name ∈ (runAdds cs).map keyOf
      · simpa [hmem] using hnd
      · simp [hmem, List.nodup_append, hnd]
    · intro k
      by_cases hk : k = lowerName c.name
      · subst hk
        rw [add_item_findByKey_same, hfind, entrySpec_append_single]
        cases h : entrySpec cs (lowerName c.name) <;> simp
      · rw [add_item_findByKey_ne _ _ _ _ _ _ hk, hfind, entrySpec_append_single]
        have hne : ¬ lowerName c.name = k := fun h => hk h.symm
        cases h : entrySpec cs k <;> simp [hne]

theorem entrySpec_isSome_iff (cmds : List AddCmd) (k : Key) :
    (entrySpec cmds k).isSome ↔ k ∈ cmds.map (fun c => lowerName c.name) := by
  induction cmds with
  | nil => simp [entrySpec]
  | cons c rest ih =>
    by_cases h : lowerName c.name = k
    · simp [entrySpec, h, ih]
    · have h2 : ¬ k = lowerName c.name := fun h3 => h h3.symm
      simp [entrySpec, h, h2, ih]

theorem entrySpec_some_content (cmds : List AddCmd) (k : Key) (e : ShoppingItem)
    (h : entrySpec cmds k = some e) :
    e.quantity = sumQ cmds k
    ∧ ∃ c0, cmds.find? (fun c => decide (lowerName c.name = k)) = some c0
        ∧ e.name = c0.name ∧ e.category = c0.cat := by
  induction cmds with
  | nil => cases h
  | cons c rest ih =>
    by_cases hc : lowerName c.name = k
    · simp only [entrySpec, if_pos hc] at h
      obtain rfl : (⟨c.name, c.qty + sumQ rest k, c.cat, ""⟩ : ShoppingItem) = e := by
        injection h
      refine ⟨by rw [sumQ_cons, if_pos hc], c, ?_, rfl, rfl⟩
      simp [List.find?, hc]
    · simp only [entrySpec, if_neg hc] at h
      obtain ⟨hq, c0, hc0, hname, hcat⟩ := ih h
      refine ⟨by rw [sumQ_cons, if_neg hc, hq, Int.zero_add], c0, ?_, hname, hcat⟩
      simp [List.find?, hc, hc0]

theorem findByKey_self_of_nodup (s : List ShoppingItem)
    (h : (s.map keyOf).Nodup) (it : ShoppingItem) (hm : it ∈ s) :
    findByKey s (keyOf it) = some it := by
  induction s with
  | nil => cases hm
  | cons x rest ih =>
    rw [findByKey_cons]
    have h' : (keyOf x :: rest.map keyOf).Nodup := by simpa using h
    have h2 := List.nodup_cons.mp h'
    rcases List.mem_cons.mp hm with h1 | h1
    · subst h1; simp
    · by_cases hx : keyOf x = keyOf it
      · exact absurd (hx ▸ List.mem_map_of_mem keyOf h1) h2.1
      · rw [if_neg hx]; exact ih h2.2 h1

/-- Example inputs of the spec's round-trip scenario. -/
def milkCmds : List AddCmd := [⟨"Milk", 1, "dairy"⟩, ⟨"milk", 2, "dairy"⟩]

/-- C1: every sequence of `add_item` calls on the store leaves exactly one
entry per distinct case-insensitive name, whose quantity is the sum of all
quantities added under that name and whose stored name is the one of the
first add; in particular ("Milk",1,"dairy") then ("milk",2,"dairy") yields
the single item ("Milk", 3, "dairy"). -/
theorem adds_merge_case_insensitive :
    (∀ cmds : List AddCmd,
      ((runAdds cmds).map keyOf).Nodup
      ∧ (∀ k : Key,
          k ∈ (runAdds cmds).map keyOf ↔ k ∈ cmds.map (fun c => lowerName c.name))
      ∧ (∀ it ∈ runAdds cmds,
          it.quantity = sumQ cmds (keyOf it)
          ∧ ∃ c0, cmds.find? (fun c => decide (lowerName c.name = keyOf it)) = some c0
              ∧ it.name = c0.name))
    ∧ runAdds milkCmds = [⟨"Milk", 3, "dairy", ""⟩] := by
  refine ⟨fun cmds => ?_, by decide⟩
  obtain ⟨hnd, hfind⟩ := runAdds_nodup_and_find cmds
  refine ⟨hnd, fun k => ?_, fun it hm => ?_⟩
  · rw [← findByKey_isSome_iff, hfind, entrySpec_isSome_iff]
  · have h1 : findByKey (runAdds cmds) (keyOf it) = some it :=
      findByKey_self_of_nodup _ hnd it hm
    rw [hfind] at h1
    obtain ⟨hq, c0, hc0, hname, _⟩ := entrySpec_some_content _ _ _ h1
    exact ⟨hq, c0, hc0, hname⟩

/-- Witness for C1 at the spec's concrete round-trip input. -/
theorem adds_merge_case_insensitive_witness :
    (⟨"Milk", 3, "dairy", ""⟩ : ShoppingItem) ∈ runAdds milkCmds
    ∧ (⟨"Milk", 3, "dairy", ""⟩ : ShoppingItem).quantity =
        sumQ milkCmds (keyOf ⟨"Milk", 3, "dairy", ""⟩) :=
  ⟨by decide,
    ((adds_merge_case_insensitive.1 milkCmds).2.2 ⟨"Milk", 3, "dairy", ""⟩
      (by decide)).1⟩

/-- One step of the `categories` dict construction in `ShoppingList.display`
(`cli_shopping.py` lines 66-71): the group holding the item's category gets
the item appended; a missing category starts a new group at the end
(Python dicts preserve insertion order, and keys are unique). -/
def addToGroups :
    List (String × List ShoppingItem) → ShoppingItem → List (String × List ShoppingItem)
  | [], it => [(it.category, [it])]
  | g :: rest, it =>
    if g.1 = it.category then (g.1, g.2 ++ [it]) :: rest
    else g :: addToGroups rest it

/-- The grouped-by-category view built by `ShoppingList.display`. -/
def view_by_category (items : List ShoppingItem) : List (String × List ShoppingItem) :=
  items.foldl addToGroups []

/-- Insert a category key if it is not yet present (first-seen order). -/
def keyStep (ks : List String) (c : String) : List String :=
  if c ∈ ks then ks else ks ++ [c]

/-- Category names in the order in which their first item occurs. -/
def firstSeenCats (cats : List String) : List String := cats.foldl keyStep []

/-- The items listed under category `c` in a grouped view. -/
def groupOf (c : String) (gs : List (String × List ShoppingItem)) : List ShoppingItem :=
  match gs.find? (fun g => decide (g.1 = c)) with
  | some g => g.2
  | none => []

theorem groupOf_nil (c : String) : groupOf c [] = [] := rfl

theorem groupOf_cons (c : String) (g : String × List ShoppingItem)
    (gs : List (String × List ShoppingItem)) :
    groupOf c (g :: gs) = if g.1 = c then g.2 else groupOf c gs := by
  by_cases h : g.1 = c <;> simp [groupOf, List.find?, h]

theorem addToGroups_map_fst (gs : List (String × List ShoppingItem))
    (it : ShoppingItem) :
    (addToGroups gs it).map Prod.fst = keyStep (gs.map Prod.fst) it.category := by
  induction gs with
  | nil => simp [addToGroups, keyStep]
  | cons g rest ih =>
    by_cases h : g.1 = it.category
    · simp [addToGroups, keyStep, h]
    · have h2 : ¬ it.category = g.1 := fun h3 => h h3.symm
      by_cases hm : it.category ∈ rest.map Prod.fst <;>
        simp [addToGroups, keyStep, h, h2, hm, ih]

theorem addToGroups_groupOf (gs : List (String × List ShoppingItem))
    (it : ShoppingItem) (c : String) :
    groupOf c (addToGroups gs it) =
      groupOf c gs ++ (if it.category = c then [it] else []) := by
  induction gs with
  | nil =>
    by_cases h : it.category = c <;>
      simp [addToGroups, groupOf_cons, groupOf_nil, h]
  | cons g rest ih =>
    by_cases h : g.1 = it.category
    · by_cases hgc : g.1 = c
      · have hc : it.category = c := h.symm.trans hgc
        simp [addToGroups, h, groupOf_cons, hgc, hc]
      · have hc : ¬ it.category = c := fun h3 => hgc (h.trans h3)
        simp [addToGroups, h, groupOf_cons, hgc, hc]
    · by_cases hgc : g.1 = c
      · have hc : ¬ it.category = c := fun h3 => h (hgc.trans h3.symm)
        have hc2 : ¬ c = it.category := fun h3 => hc h3.symm
        simp [addToGroups, h, groupOf_cons, hgc, hc, hc2]
      · simp [addToGroups, h, groupOf_cons, hgc, ih]

theorem foldl_addToGroups_map_fst (items : List ShoppingItem) :
    ∀ gs : List (String × List ShoppingItem),
      (items.foldl addToGroups gs).map Prod.fst =
        (items.map ShoppingItem.category).foldl keyStep (gs.map Prod.fst) := by
  induction items with
  | nil => intro gs; rfl
  | cons it rest ih =>
    intro gs
    rw [List.foldl_cons, ih, addToGroups_map_fst, List.map_cons, List.foldl_cons]

theorem foldl_addToGroups_groupOf (items : List ShoppingItem) :
    ∀ (gs : List (String × List ShoppingItem)) (c : String),
      groupOf c (items.foldl addToGroups gs) =
        groupOf c gs ++ items.filter (fun it => decide (it.category = c)) := by
  induction items with
  | nil => intro gs c; simp
  | cons it rest ih =>
    intro gs c
    rw [List.foldl_cons, ih, addToGroups_groupOf, List.append_assoc]
    by_cases h : it.category = c <;> simp [List.filter, h]

/-- C7: the grouped view lists categories in first-seen order; the items of
each category keep their relative order from the list (the group under `c`
is exactly the sublist of items with category `c`); clearing the store
yields the empty grouping. -/
theorem view_by_category_grouping :
    (∀ items : List ShoppingItem,
      (view_by_category items).map Prod.fst =
        firstSeenCats (items.map ShoppingItem.category)
      ∧ ∀ c : String,
          groupOf c (view_by_category items) =
            items.filter (fun it => decide (it.category = c)))
    ∧ ∀ s : List ShoppingItem, view_by_category (clear_list s) = [] := by
  refine ⟨fun items => ⟨?_, fun c => ?_⟩, fun s => rfl⟩
  · simpa using foldl_addToGroups_map_fst items []
  · simpa using foldl_addToGroups_groupOf items [] c

/-- C6: removing a name with no case-insensitive match leaves the store
unchanged, and `remove_item` is idempotent: the second removal of the same
name is a no-op. -/
theorem remove_absent_noop_and_idempotent :
    (∀ (s : List ShoppingItem) (n : String),
        (∀ it ∈ s, keyOf it ≠ lowerName n) → remove_item s n = s)
    ∧ ∀ (s : List ShoppingItem) (n : String),
        remove_item (remove_item s n) n = remove_item s n := by
  constructor
  · intro s n h
    apply List.filter_eq_self.mpr
    intro it hit
    simpa using h it hit
  · intro s n
    simp [remove_item, List.filter_filter]

/-- Witness for C6: removing the absent name "milk" from a one-item store
leaves it unchanged. -/
theorem remove_absent_noop_witness :
    (∀ it ∈ [(⟨"bread", 1, "bakery", ""⟩ : ShoppingItem)],
        keyOf it ≠ lowerName "milk")
    ∧ remove_item [⟨"bread", 1, "bakery", ""⟩] "milk" =
        [⟨"bread", 1, "bakery", ""⟩] :=
  ⟨by decide,
    remove_absent_noop_and_idempotent.1 [⟨"bread", 1, "bakery", ""⟩] "milk"
      (by decide)⟩

/-- `a` is a prefix of `b`, as booleans on character lists. -/
def pfxMatch : List Char → List Char → Bool
  | [], _ => true
  | _ :: _, [] => false
  | a :: as, b :: bs => a == b && pfxMatch as bs

/-- Model of Python substring containment `needle in hay` on char lists. -/
def containsSub (needle : List Char) : List Char → Bool
  | [] => pfxMatch needle []
  | c :: rest => pfxMatch needle (c :: rest) || containsSub needle rest

/-- Keyword hit: the lowered user text contains the keyword, modelling
`'kw' in user_text_lower`. -/
def hitKw (t : Key) (w : String) : Bool := containsSub w.data t

/-- The keyword table of `process_shopping_from_response` (`main.py`
lines 253-279): checks in source order over the lowercased text, each hit
contributing one `(name, 1, category)` triple. -/
def detect_items_main (userText : String) : List (String × Int × String) :=
  let t := lowerName userText
  (if hitKw t "milk" then [("milk", 1, "dairy")] else []) ++
  (if hitKw t "bread" then [("bread", 1, "bakery")] else []) ++
  (if hitKw t "eggs" then [("eggs", 1, "dairy")] else []) ++
  (if hitKw t "cheese" then [("cheese", 1, "dairy")] else []) ++
  (if hitKw t "butter" then [("butter", 1, "dairy")] else []) ++
  (if hitKw t "banana" || hitKw t "bananas" then [("bananas", 1, "produce")] else []) ++
  (if hitKw t "apple" || hitKw t "apples" then [("apples", 1, "produce")] else []) ++
  (if hitKw t "chicken" then [("chicken", 1, "meat")] else []) ++
  (if hitKw t "beef" then [("beef", 1, "meat")] else []) ++
  (if hitKw t "rice" then [("rice", 1, "pantry")] else []) ++
  (if hitKw t "pasta" then [("pasta", 1, "pantry")] else [])

/-- The keyword table of `ShoppingAssistant.process_shopping_items`
(`cli_shopping.py` lines 138-196), in source order. -/
def detect_items_cli (userText : String) : List (String × Int × String) :=
  let t := lowerName userText
  (if hitKw t "milk" then [("milk", 1, "dairy")] else []) ++
  (if hitKw t "cheese" then [("cheese", 1, "dairy")] else []) ++
  (if hitKw t "butter" then [("butter", 1, "dairy")] else []) ++
  (if hitKw t "yogurt" then [("yogurt", 1, "dairy")] else []) ++
  (if hitKw t "cream" then [("cream", 1, "dairy")] else []) ++
  (if hitKw t "banana" || hitKw t "bananas" then [("bananas", 1, "produce")] else []) ++
  (if hitKw t "apple" || hitKw t "apples" then [("apples", 1, "produce")] else []) ++
  (if hitKw t "tomato" || hitKw t "tomatoes" then [("tomatoes", 1, "produce")] else []) ++
  (if hitKw t "lettuce" then [("lettuce", 1, "produce")] else []) ++
  (if hitKw t "carrot" || hitKw t "carrots" then [("carrots", 1, "produce")] else []) ++
  (if hitKw t "chicken" then [("chicken", 1, "meat")] else []) ++
  (if hitKw t "beef" then [("beef", 1, "meat")] else []) ++
  (if hitKw t "pork" then [("pork", 1, "meat")] else []) ++
  (if hitKw t "fish" then [("fish", 1, "meat")] else []) ++
  (if hitKw t "bread" then [("bread", 1, "bakery")] else []) ++
  (if hitKw t "bagel" || hitKw t "bagels" then [("bagels", 1, "bakery")] else []) ++
  (if hitKw t "croissant" || hitKw t "croissants" then [("croissants", 1, "bakery")] else []) ++
  (if hitKw t "rice" then [("rice", 1, "pantry")] else []) ++
  (if hitKw t "pasta" then [("pasta", 1, "pantry")] else []) ++
  (if hitKw t "oil" then [("cooking oil", 1, "pantry")] else []) ++
  (if hitKw t "sauce" then [("pasta sauce", 1, "pantry")] else [])

/-- The add used by `process_shopping_from_response` (`main.py` lines
282-288): append only when no case-insensitive match exists; an existing
entry is left untouched (no quantity merge on this path). -/
def addIfAbsent (s : List ShoppingItem) (n : String) (q : Int) (c : String) :
    List ShoppingItem :=
  if (findByKey s (lowerName n)).isSome then s else s ++ [⟨n, q, c, ""⟩]

/-- `process_shopping_from_response`: detect keywords in the user text and
add each detected triple to the backend's shopping list. -/
def process_shopping_from_response (s : List ShoppingItem) (userText : String) :
    List ShoppingItem :=
  (detect_items_main userText).foldl (fun st c => addIfAbsent st c.1 c.2.1 c.2.2) s

/-- `ShoppingAssistant.process_shopping_items` (`cli_shopping.py` lines
197-199): detected triples go through `ShoppingList.add_item`. -/
def process_shopping_items (s : List ShoppingItem) (userText : String) :
    List ShoppingItem :=
  (detect_items_cli userText).foldl (fun st c => add_item st c.1 c.2.1 c.2.2 "") s

/-- C5: keyword detection on "I need milk and bread" yields exactly
("milk",1,"dairy") then ("bread",1,"bakery"), on both the backend and the
CLI keyword tables, and processing that text on an empty store adds the two
items in that order. -/
theorem keyword_milk_bread :
    detect_items_main "I need milk and bread" =
      [("milk", 1, "dairy"), ("bread", 1, "bakery")]
    ∧ process_shopping_from_response [] "I need milk and bread" =
      [⟨"milk", 1, "dairy", ""⟩, ⟨"bread", 1, "bakery", ""⟩]
    ∧ detect_items_cli "I need milk and bread" =
      [("milk", 1, "dairy"), ("bread", 1, "bakery")]
    ∧ process_shopping_items [] "I need milk and bread" =
      [⟨"milk", 1, "dairy", ""⟩, ⟨"bread", 1, "bakery", ""⟩] := by
  refine ⟨by decide, by decide, by decide, by decide⟩

/-- A parsed facade WebSocket message: its `type` tag and the rest of the
JSON payload, opaque here. -/
structure FacadeMsg where
  type : String
  body : String
deriving DecidableEq, Repr

/-- The reply sent back on the same connection by `websocket_endpoint`
(`main.py` lines 158-177): the two recognised tags go to their handlers
(whose replies depend on vendor/state and stay abstract here); anything
else is echoed as `{"type": "echo", "data": message}`. -/
inductive FacadeResponse where
  | voiceResponse (m : FacadeMsg)
  | shoppingResponse (m : FacadeMsg)
  | echo (m : FacadeMsg)
deriving DecidableEq, Repr

/-- One iteration of the receive loop's dispatch on `message.get("type")`. -/
def handle_ws_message (m : FacadeMsg) : FacadeResponse :=
  if m.type = "voice_input" then .voiceResponse m
  else if m.type = "shopping_action" then .shoppingResponse m
  else .echo m

/-- The `while True` receive loop of `websocket_endpoint`: every branch
replies and loops again, so each received message yields a response. -/
def websocket_receive_loop : List FacadeMsg → List FacadeResponse
  | [] => []
  | m :: rest => handle_ws_message m :: websocket_receive_loop rest

/-- C4: an unrecognized `type` is answered with an echo response carrying
the original message, and the receive loop goes on to process the
subsequent messages (the connection is not dropped). -/
theorem unknown_type_echoed :
    (∀ m : FacadeMsg,
        m.type ≠ "voice_input" → m.type ≠ "shopping_action" →
        handle_ws_message m = .echo m)
    ∧ ∀ (m : FacadeMsg) (rest : List FacadeMsg),
        websocket_receive_loop (m :: rest) =
          handle_ws_message m :: websocket_receive_loop rest :=
  ⟨fun m h1 h2 => by simp [handle_ws_message, h1, h2], fun m rest => rfl⟩

/-- Witness for C4 at the concrete unrecognized message type "ping". -/
theorem unknown_type_echoed_witness :
    (⟨"ping", ""⟩ : FacadeMsg).type ≠ "voice_input"
    ∧ handle_ws_message ⟨"ping", ""⟩ = .echo ⟨"ping", ""⟩ :=
  ⟨by decide, unknown_type_echoed.1 ⟨"ping", ""⟩ (by decide) (by decide)⟩

/-- A `shopping_action` facade message: the `action` value and the item
payload parsed by the pydantic `ShoppingItem(**item_data)` model. -/
structure ShoppingActionMsg where
  action : String
  item : ShoppingItem
deriving DecidableEq, Repr

/-- The JSON replies of `process_shopping_action` (`main.py` lines
320-368), by their `type` discriminator. -/
inductive ShoppingActionResponse where
  | shoppingUpdate (action : String) (item : Option ShoppingItem)
      (totalItems : Nat) (message : String)
  | shoppingListResp (items : List ShoppingItem) (totalItems : Nat)
  | errorResp (message : String)
deriving DecidableEq, Repr

/-- `process_shopping_action`: dispatch on the `action` value, returning
the reply and the new global `shopping_list`.  The `add_item` branch
appends unconditionally; unknown actions report an error and leave the
list alone. -/
def process_shopping_action (m : ShoppingActionMsg) (store : List ShoppingItem) :
    ShoppingActionResponse × List ShoppingItem :=
  if m.action = "add_item" then
    let newStore := store ++ [m.item]
    (.shoppingUpdate "item_added" (some m.item) newStore.length
        ("Added " ++ m.item.name ++ " to your shopping list"), newStore)
  else if m.action = "get_list" then
    (.shoppingListResp store store.length, store)
  else if m.action = "clear_list" then
    (.shoppingUpdate "list_cleared" none 0 "Your shopping list has been cleared", [])
  else
    (.errorResp ("Unknown action: " ++ m.action), store)

/-- `add_shopping_item`, the POST /api/shopping-list handler (`main.py`
lines 375-379): an unconditional append. -/
def add_shopping_item (store : List ShoppingItem) (it : ShoppingItem) :
    List ShoppingItem :=
  store ++ [it]

/-- C8: an action value other than add_item/get_list/clear_list yields an
error-typed response naming the unrecognized command, the shopping list is
unchanged, and the receive loop still processes subsequent messages. -/
theorem unknown_action_error :
    (∀ (m : ShoppingActionMsg) (store : List ShoppingItem),
      m.action ≠ "add_item" → m.action ≠ "get_list" → m.action ≠ "clear_list" →
      process_shopping_action m store =
        (.errorResp ("Unknown action: " ++ m.action), store))
    ∧ ∀ (m : FacadeMsg) (rest : List FacadeMsg),
        websocket_receive_loop (m :: rest) ≠ [] :=
  ⟨fun m store h1 h2 h3 => by simp [process_shopping_action, h1, h2, h3],
    fun m rest => by simp [websocket_receive_loop]⟩

/-- Witness for C8 at the concrete unrecognized action "remove_item". -/
theorem unknown_action_error_witness :
    (⟨"remove_item", ⟨"milk", 1, "dairy", ""⟩⟩ : ShoppingActionMsg).action ≠ "add_item"
    ∧ process_shopping_action ⟨"remove_item", ⟨"milk", 1, "dairy", ""⟩⟩ [] =
        (.errorResp "Unknown action: remove_item", []) :=
  ⟨by decide,
    unknown_action_error.1 ⟨"remove_item", ⟨"milk", 1, "dairy", ""⟩⟩ []
      (by decide) (by decide) (by decide)⟩

/-- C10: the two direct facade add paths never merge: the shopping_action
add_item branch and the POST handler both append, so the list grows by
exactly one entry even when the same case-insensitive name is present —
concretely, adding "milk" over an existing "Milk" leaves two entries. -/
theorem direct_add_paths_append :
    (∀ (store : List ShoppingItem) (it : ShoppingItem),
      (process_shopping_action ⟨"add_item", it⟩ store).2 = store ++ [it]
      ∧ ((process_shopping_action ⟨"add_item", it⟩ store).2).length = store.length + 1)
    ∧ (∀ (store : List ShoppingItem) (it : ShoppingItem),
      add_shopping_item store it = store ++ [it]
      ∧ (add_shopping_item store it).length = store.length + 1)
    ∧ (process_shopping_action ⟨"add_item", ⟨"milk", 1, "dairy", ""⟩⟩
        [⟨"Milk", 1, "dairy", ""⟩]).2 =
      [⟨"Milk", 1, "dairy", ""⟩, ⟨"milk", 1, "dairy", ""⟩] := by
  refine ⟨fun store it => ⟨?_, ?_⟩, fun store it => ⟨rfl, by simp [add_shopping_item]⟩, by decide⟩
  · simp [process_shopping_action]
  · simp [process_shopping_action]

/-- One captured PCM16 chunk, as its sample values. -/
abbrev AudioFrame := List Int

/-- `queue.Queue(maxsize=20)` created for the mic in `realtime.py` line 95. -/
def micQueueMaxsize : Nat := 20

/-- Result of one `q.put(chunk)` call by the capture callback.  The call
uses the default `block=True, timeout=None`, so on a full queue it waits
for a free slot with no bound of its own — rendered here as the
distinguished outcome `blocks`. -/
inductive PutOutcome where
  | enqueued (q : List AudioFrame)
  | blocks
deriving DecidableEq, Repr

/-- `Queue.put` of the mic queue: append when below `maxsize`, otherwise
the producer is suspended until the consumer frees a slot. -/
def queue_put (q : List AudioFrame) (f : AudioFrame) : PutOutcome :=
  if q.length < micQueueMaxsize then .enqueued (q ++ [f]) else .blocks

/-- Outcome of one run of the capture callback in `audio_stream`
(`realtime.py` lines 26-33). -/
inductive CallbackOutcome where
  | stopRaised
  | enqueued (q : List AudioFrame)
  | blocks
deriving DecidableEq, Repr

/-- The capture callback: if the stop event is set it raises
`sd.CallbackStop`; otherwise it converts the chunk and calls `q.put`. -/
def audio_callback (stopSet : Bool) (q : List AudioFrame) (f : AudioFrame) :
    CallbackOutcome :=
  if stopSet then .stopRaised
  else
    match queue_put q f with
    | .enqueued q2 => .enqueued q2
    | .blocks => .blocks

/-- Counterexample to C2: with the stop event clear and the queue at its
capacity of 20 frames, the capture-callback enqueue neither rejects nor
drops — it blocks (the unbounded default `Queue.put`), so the claimed
bounded-time behaviour fails. -/
theorem full_queue_enqueue_claim_false :
    ¬ (∀ (stopSet : Bool) (q : List AudioFrame) (f : AudioFrame),
        q.length = micQueueMaxsize →
        audio_callback stopSet q f ≠ CallbackOutcome.blocks) := by
  intro h
  exact h false (List.replicate 20 []) [] (by decide) (by decide)

/-- C2 amended: on a full queue the producer's enqueue blocks until the
consumer frees space (it is bounded only by consumer progress); below
capacity it appends; the only immediate exit is the stop event, which
raises `CallbackStop` before any enqueue. -/
theorem full_queue_enqueue_blocks (q : List AudioFrame) (f : AudioFrame) :
    (micQueueMaxsize ≤ q.length → audio_callback false q f = .blocks)
    ∧ (q.length < micQueueMaxsize →
        audio_callback false q f = .enqueued (q ++ [f]))
    ∧ audio_callback true q f = .stopRaised := by
  refine ⟨fun h => ?_, fun h => ?_, rfl⟩
  · simp [audio_callback, queue_put, Nat.not_lt.mpr h]
  · simp [audio_callback, queue_put, h]

/-- Witness for the amended C2 at a concrete full queue. -/
theorem full_queue_enqueue_blocks_witness :
    micQueueMaxsize ≤ (List.replicate 20 ([] : AudioFrame)).length
    ∧ audio_callback false (List.replicate 20 []) [] = .blocks :=
  ⟨by decide, (full_queue_enqueue_blocks (List.replicate 20 []) []).1 (by decide)⟩

/-- The four entry points of the repository that read `OPENAI_API_KEY`. -/
inductive Program where
  | backendMain
  | voiceDuplex
  | realtimeScript
  | cliShopping
deriving DecidableEq, Repr

/-- What happens at startup, per entry point. -/
inductive StartupOutcome where
  | fatalConfigError
  | warnAndContinue
  | gracefulExit
  | runsNormally
deriving DecidableEq, Repr

/-- Startup behaviour when `os.getenv("OPENAI_API_KEY")` yields the given
value, read once, never retried: `main.py` lines 47-52 log a warning and
keep serving with `client = None`; `voice_duplex_chat.py` lines 50-52
raise `ValueError`; `realtime.py` line 56 fails its `assert`;
`cli_shopping.py` lines 87-91 with 203-204 print an error and return
without running the loop. -/
def startup : Program → Option String → StartupOutcome
  | .backendMain, none => .warnAndContinue
  | .voiceDuplex, none => .fatalConfigError
  | .realtimeScript, none => .fatalConfigError
  | .cliShopping, none => .gracefulExit
  | _, some _ => .runsNormally

/-- The GET /health reply of `main.py` lines 133-143, reduced to the fields
that depend on the credential. -/
structure HealthResponse where
  status : String
  openaiConfigured : Bool
deriving DecidableEq, Repr

/-- `health_check`: the backend still answers, reporting "healthy" with
`openai_configured` false, when the key is missing. -/
def health_check (key : Option String) : HealthResponse :=
  ⟨"healthy", key.isSome⟩

/-- Counterexample to C3: the backend facade (`main.py`) does not fail
fatally on a missing credential — it warns and keeps serving. -/
theorem missing_key_not_always_fatal :
    ¬ (∀ p : Program, startup p none = StartupOutcome.fatalConfigError) := by
  intro h
  exact absurd (h .backendMain) (by decide)

/-- C3 amended: only the realtime script and the duplex chat script fail
fatally at startup on a missing credential (no retry anywhere); the
backend facade logs a warning and keeps serving (its health check still
answers), and the CLI prints an error and exits without running. -/
theorem missing_key_startup_behaviour :
    startup .realtimeScript none = .fatalConfigError
    ∧ startup .voiceDuplex none = .fatalConfigError
    ∧ startup .backendMain none = .warnAndContinue
    ∧ startup .cliShopping none = .gracefulExit
    ∧ health_check none = ⟨"healthy", false⟩ := by
  decide

/-- The statements of the completion block in
`VoiceDuplexChat.chat_with_agent` (`voice_duplex_chat.py` lines 233-237),
in source order: the sleep, the `break`, and the transcript-reporting
print placed after it. -/
inductive TailStmt where
  | sleepOne
  | breakStmt
  | printAgentSaid
deriving DecidableEq, Repr

/-- State of the `async for event in session` loop: the accumulated
transcript, the accumulated audio byte count, and whether the
"Agent said" print after the `break` ever executed. -/
structure ChatLoopState where
  transcript : List Char
  audioLen : Nat
  agentSaidPrinted : Bool
deriving DecidableEq, Repr

/-- Run a straight-line block: statements execute in order until a
`break`, which exits the block (and the loop); the returned flag says
whether a `break` was reached. -/
def runStmts : ChatLoopState → List TailStmt → ChatLoopState × Bool
  | s, [] => (s, false)
  | s, .sleepOne :: rest => runStmts s rest
  | s, .breakStmt :: _ => (s, true)
  | s, .printAgentSaid :: rest => runStmts { s with agentSaidPrinted := true } rest

/-- The completion block exactly as written in the source: sleep, break,
then the print. -/
def breakBlock : List TailStmt := [.sleepOne, .breakStmt, .printAgentSaid]

/-- The session events dispatched by the loop (lines 206-228). -/
inductive ChatEvent where
  | rawTranscriptDelta (d : List Char)
  | rawOther
  | audioChunk (n : Nat)
  | transcriptDelta (d : List Char)
  | otherEvent
deriving DecidableEq, Repr

/-- The event dispatch of one iteration: transcript deltas append to the
running transcript, audio events grow the audio buffer, anything else is
ignored. -/
def applyEvent (s : ChatLoopState) : ChatEvent → ChatLoopState
  | .rawTranscriptDelta d => { s with transcript := s.transcript ++ d }
  | .rawOther => s
  | .audioChunk n => { s with audioLen := s.audioLen + n }
  | .transcriptDelta d => { s with transcript := s.transcript ++ d }
  | .otherEvent => s

/-- One loop iteration: dispatch the event, then run the completion block
when `full_transcript and len(full_transcript) > 10` holds. -/
def chatBody (s : ChatLoopState) (e : ChatEvent) : ChatLoopState × Bool :=
  let s2 := applyEvent s e
  if s2.transcript ≠ [] ∧ s2.transcript.length > 10 then runStmts s2 breakBlock
  else (s2, false)

/-- The `async for` loop over the session's events, stopping when the body
breaks. -/
def chat_event_loop : ChatLoopState → List ChatEvent → ChatLoopState
  | s, [] => s
  | s, e :: rest =>
    match chatBody s e with
    | (s2, true) => s2
    | (s2, false) => chat_event_loop s2 rest

/-- The state at `chat_with_agent` entry: empty transcript, no audio. -/
def initChatState : ChatLoopState := ⟨[], 0, false⟩

theorem chatBody_fst_agentSaidPrinted (s : ChatLoopState) (e : ChatEvent) :
    (chatBody s e).1.agentSaidPrinted = s.agentSaidPrinted := by
  have hA : (applyEvent s e).agentSaidPrinted = s.agentSaidPrinted := by
    cases e <;> rfl
  simp only [chatBody]
  by_cases h : (applyEvent s e).transcript ≠ [] ∧ (applyEvent s e).transcript.length > 10
  · rw [if_pos h]; exact hA
  · rw [if_neg h]; exact hA

theorem chat_event_loop_agentSaidPrinted (events : List ChatEvent) :
    ∀ s : ChatLoopState,
      (chat_event_loop s events).agentSaidPrinted = s.agentSaidPrinted := by
  induction events with
  | nil => intro s; rfl
  | cons e rest ih =>
    intro s
    have h2 := chatBody_fst_agentSaidPrinted s e
    simp only [chat_event_loop]
    rcases hb : chatBody s e with ⟨s2, b⟩
    rw [hb] at h2
    cases b
    · rw [ih s2]; exact h2
    · exact h2

/-- C9: the "Agent said" print placed after the `break` never executes:
running the completion block reaches the `break` with the print still
pending, and over every event sequence the loop ends with the print flag
still false — although the print statement is part of the block. -/
theorem transcript_print_unreachable :
    (∀ s : ChatLoopState, runStmts s breakBlock = (s, true))
    ∧ (∀ events : List ChatEvent,
        (chat_event_loop initChatState events).agentSaidPrinted = false)
    ∧ TailStmt.printAgentSaid ∈ breakBlock := by
  refine ⟨fun s => rfl, fun events => ?_, by decide⟩
  rw [chat_event_loop_agentSaidPrinted events initChatState]
  rfl

end ShopEAT
